import Mathlib

/-!
Verification development for the kdenlive-api remote-call client.

The Python source manipulates strings as sequences of characters, so the
embedding models a Python `str` as `List Char` (`PS`), with the string
operations used by the source (`strip`, `rstrip`, slicing, `startswith`,
`endswith`) defined over lists with Python semantics.  Reply parsing
(`_parse_scalar`, `_parse_dbus_value`, `_parse_array`,
`_parse_dbus_send_output` in `kdenlive_api/dbus_client.py`) is embedded as
total functions; the source's index-threaded recursion over a fixed list of
lines is rendered as recursion consuming a suffix of the line list, with a
fuel parameter bounding the recursion depth (the source's loops are bounded
by the index reaching the end of the lines; `2 * n + 2` ticks dominate every
path over `n` lines, since every tick either consumes a line or is the one
per-child loop step of `_parse_array`).
-/

/-- A Python `str`, modelled as its sequence of characters. -/
abbrev PS := List Char

/-- Characters Python's `str.strip()` removes. -/
def pyIsSpace (c : Char) : Bool :=
  c == ' ' || c == '\t' || c == '\n' || c == '\r' || c == '\x0b' || c == '\x0c'

/-- Embed a Lean string literal as a `PS`. -/
def lit (s : String) : PS := s.data

/-- Python `str.lstrip()`. -/
def lstrip (s : PS) : PS := s.dropWhile pyIsSpace

/-- Python `str.rstrip()`. -/
def rstrip (s : PS) : PS := (s.reverse.dropWhile pyIsSpace).reverse

/-- Python `str.strip()`. -/
def strip (s : PS) : PS := rstrip (lstrip s)

/-- Python `str.startswith(p)`. -/
def startswith (s p : PS) : Bool := p.isPrefixOf s

/-- Python `str.endswith(p)`. -/
def endswith (s p : PS) : Bool := p.isSuffixOf s

/-- Python `'\n'.join(parts)`. -/
def joinNl (parts : List PS) : PS := List.intercalate [ '\n' ] parts

/-- Python `str.rstrip('"')`: remove all trailing quote characters. -/
def rstripQuote (s : PS) : PS := (s.reverse.dropWhile (· == '"')).reverse

/-- The parsed result of one reply (`RemoteValue`): the parser in the source
returns Python strings, 2-tuples (from dict entries), lists and dicts.  A
dict is carried as its ordered list of `pair` entries. -/
inductive DVal where
  | str : PS → DVal
  | pair : DVal → DVal → DVal
  | arr : List DVal → DVal
  | map : List DVal → DVal
deriving Repr

mutual
/-- Python `==` on parsed values. -/
def dvalBEq : DVal → DVal → Bool
  | .str a, .str b => a == b
  | .pair a1 a2, .pair b1 b2 => dvalBEq a1 b1 && dvalBEq a2 b2
  | .arr a, .arr b => dvalListBEq a b
  | .map a, .map b => dvalListBEq a b
  | _, _ => false

def dvalListBEq : List DVal → List DVal → Bool
  | [], [] => true
  | a :: as_, b :: bs => dvalBEq a b && dvalListBEq as_ bs
  | _, _ => false
end

instance : BEq DVal := ⟨dvalBEq⟩

/-- The source keeps an array item unless it is `None` or equal to `""`
(`_parse_array`, line `if val is not None and val != "":`).  The parser never
produces `None`, and only the empty string compares equal to `""`. -/
def keepVal : DVal → Bool
  | .str s => !s.isEmpty
  | _ => true

/-- Python `isinstance(i, tuple) and len(i) == 2` for parsed values. -/
def isPairV : DVal → Bool
  | .pair _ _ => true
  | _ => false

/-- One step of Python `dict(items)` construction: insert or update a key,
keeping the position of the first occurrence and the last value. -/
def pydictUpd : List DVal → DVal → DVal → List DVal
  | [], k, v => [.pair k v]
  | .pair k0 v0 :: t, k, v =>
      if dvalBEq k0 k then .pair k0 v :: t else .pair k0 v0 :: pydictUpd t k v
  | x :: t, k, v => x :: pydictUpd t k v

/-- Fold step of Python `dict(items)` (items are 2-tuples whenever the
source calls `dict`). -/
def pydictStep (acc : List DVal) (it : DVal) : List DVal :=
  match it with
  | .pair k v => pydictUpd acc k v
  | _ => acc

/-- Python `dict(items)` over a list of `pair` items (insertion order kept,
duplicate keys updated in place). -/
def pydict (items : List DVal) : List DVal :=
  items.foldl pydictStep []

/-- The final step of `_parse_array`: if dict entries were seen, items were
collected and every item is a 2-tuple, return a dict; otherwise the list. -/
def finishArr (hasDictEntries : Bool) (items : List DVal) : DVal :=
  if hasDictEntries && !items.isEmpty && items.all isPairV then
    .map (pydict items)
  else
    .arr items

/-- `KdenliveDBus._parse_scalar` (dbus_client.py lines 240-249). -/
def parseScalar (line : PS) : Option PS :=
  if startswith line (lit "string \"") then
    some (if endswith line (lit "\"") then (line.drop 8).dropLast else line.drop 7)
  else if startswith line (lit "int32 ") then some (line.drop 6)
  else if startswith line (lit "int64 ") then some (line.drop 6)
  else if startswith line (lit "uint32 ") then some (line.drop 7)
  else if startswith line (lit "uint64 ") then some (line.drop 7)
  else if startswith line (lit "double ") then some (line.drop 7)
  else if startswith line (lit "boolean ") then some (line.drop 8)
  else none

/-- The multi-line-string loop of `_parse_dbus_value` (lines 266-275):
consume raw lines until one ends in an unescaped quote after right-strip,
then join the collected parts with newlines. -/
def multiString (parts : List PS) : List PS → PS × List PS
  | [] => (joinNl parts, [])
  | raw :: rest =>
    let st := rstrip raw
    if endswith st (lit "\"") && !endswith st (lit "\\\"") then
      (joinNl (parts ++ [st.dropLast]), rest)
    else
      multiString (parts ++ [raw]) rest

mutual
/-- `KdenliveDBus._parse_dbus_value` (lines 251-319), with the shared index
rendered as the remaining suffix of lines and a fuel bound. -/
def parseVal : Nat → List PS → DVal × List PS
  | 0, ls => (.str [], ls)
  | _ + 1, [] => (.str [], [])
  | fuel + 1, l :: rest =>
    let line := strip l
    if (line == ([] : PS)) || (line == lit ")") then
      parseVal fuel rest
    else if startswith line (lit "string \"") && !endswith line (lit "\"") then
      let m := multiString [line.drop 8] rest
      (.str m.1, m.2)
    else
      match parseScalar line with
      | some v => (.str v, rest)
      | none =>
        if startswith line (lit "variant") then
          let r := strip (line.drop 7)
          if !r.isEmpty then
            match parseScalar r with
            | some v => (.str v, rest)
            | none =>
              if r == lit "array [" then parseArr fuel rest
              else parseVal fuel rest
          else parseVal fuel rest
        else if line == lit "array [" then
          parseArr fuel rest
        else if line == lit "]" then
          parseVal fuel rest
        else if line == lit "dict entry(" then
          let kr := parseVal fuel rest
          let vr := parseVal fuel kr.2
          let r3 := match vr.2 with
            | x :: xs => if strip x == lit ")" then xs else vr.2
            | [] => ([] : List PS)
          (.pair kr.1 vr.1, r3)
        else
          parseVal fuel rest

/-- `KdenliveDBus._parse_array` (lines 321-348), entry point. -/
def parseArr : Nat → List PS → DVal × List PS
  | 0, ls => (finishArr false [], ls)
  | fuel + 1, ls => parseArrGo fuel ls [] false

/-- The collection loop of `_parse_array` (lines 330-342). -/
def parseArrGo : Nat → List PS → List DVal → Bool → DVal × List PS
  | 0, ls, items, flag => (finishArr flag items, ls)
  | _ + 1, [], items, flag => (finishArr flag items, [])
  | fuel + 1, l :: rest, items, flag =>
    let inner := strip l
    if inner == lit "]" then
      (finishArr flag items, rest)
    else
      let flag2 := if inner == lit "dict entry(" then true else flag
      let vr := parseVal fuel (l :: rest)
      parseArrGo fuel vr.2
        (if keepVal vr.1 then items ++ [vr.1] else items) flag2
end

/-- `KdenliveDBus._parse_dbus_send_output` (lines 216-238), taking the reply
already split into lines: drop `method return` header lines, return the void
sentinel `""` for an empty payload, else parse the first value. -/
def parseReply (lines : List PS) : DVal :=
  let payload := lines.filter
    (fun l => !startswith (strip l) (lit "method return "))
  if payload.isEmpty then .str []
  else (parseVal (2 * payload.length + 2) payload).1

/-! ## Remote Call Facade (`KdenliveDBus._call`, lines 129-142)

The call is modelled against an environment describing the outcomes of the
transport primitives: the optional native proxy's outcome, the subprocess
call's outcome as a function of the service address used, and the address
that a re-run of `_discover_service` would return.  The trace records the
result together with how many subprocess attempts and how many rediscoveries
were performed. -/

structure CallEnv (V E : Type) where
  proxyOutcome : Option (Except E V)
  subOutcome : PS → Except E V
  rediscovered : PS

structure CallTrace (V E : Type) where
  result : Except E V
  subCalls : Nat
  discoveries : Nat
deriving Repr

/-- `KdenliveDBus._call`: native proxy outcomes (success or error) are
returned directly; a subprocess failure triggers one rediscovery, a retry
only if the address changed, and a re-raise of the original error
otherwise. -/
def callFacade (env : CallEnv V E) (svc : PS) : CallTrace V E :=
  match env.proxyOutcome with
  | some r => ⟨r, 0, 0⟩
  | none =>
    match env.subOutcome svc with
    | .ok v => ⟨.ok v, 1, 0⟩
    | .error e =>
      let svc2 := env.rediscovered
      if svc2 ≠ svc then ⟨env.subOutcome svc2, 2, 1⟩
      else ⟨.error e, 1, 1⟩

/-! ## Subprocess tool chain (`KdenliveDBus._call_subprocess`, lines 144-214)

Each CLI tool invocation is summarised by its outcome: success with a value,
the executable being absent (`FileNotFoundError`), a non-zero exit
(`CalledProcessError`), or a timeout (`TimeoutExpired`).  The source wraps
the dbus-send attempt in `except (FileNotFoundError, CalledProcessError)`,
the qdbus attempt in `except FileNotFoundError` only, and the gdbus attempt
in nothing. -/

inductive ToolRun (V : Type) where
  | ok : V → ToolRun V
  | missing : ToolRun V
  | exitErr : ToolRun V
  | timedOut : ToolRun V
deriving Repr, DecidableEq

inductive Tool where
  | dbusSend | qdbus | gdbus
deriving Repr, DecidableEq

inductive ErrKind where
  | missing | exitErr | timedOut
deriving Repr, DecidableEq

/-- `KdenliveDBus._call_subprocess`: the tool fallback chain, returning the
first successful tool's value or the exception that escapes the chain. -/
def callSubprocess (d q g : ToolRun V) : Except (Tool × ErrKind) V :=
  match d with
  | .ok v => .ok v
  | .timedOut => .error (.dbusSend, .timedOut)
  | .missing | .exitErr =>
    match q with
    | .ok v => .ok v
    | .exitErr => .error (.qdbus, .exitErr)
    | .timedOut => .error (.qdbus, .timedOut)
    | .missing =>
      match g with
      | .ok v => .ok v
      | .missing => .error (.gdbus, .missing)
      | .exitErr => .error (.gdbus, .exitErr)
      | .timedOut => .error (.gdbus, .timedOut)

/-! ## Service discovery (`KdenliveDBus._discover_service`, lines 89-112) -/

/-- Outcome of the `dbus-send ... ListNames` probe: stdout lines on
completion (the call runs without `check=True`, so a non-zero exit still
yields its stdout), or one of the exceptions the source catches. -/
inductive RunOut where
  | completed : List PS → RunOut
  | fileNotFound : RunOut
  | timedOut : RunOut
  | calledProcessErr : RunOut
deriving Repr

def DBUS_SERVICE : PS := lit "org.kde.kdenlive"

def DBUS_SERVICE_PREFIX : PS := lit "org.kde.kdenlive"

/-- One line of the ListNames scan: a stripped `string "..."` line whose
unquoted value starts with the service name followed by `-` is a
candidate. -/
def lineCandidate (l : PS) : Option PS :=
  let line := strip l
  if startswith line (lit "string \"") then
    let value := rstripQuote (line.drop 8)
    if startswith value (DBUS_SERVICE_PREFIX ++ [ '-' ]) then some value
    else none
  else none

/-- The scan loop of `_discover_service`: first candidate wins. -/
def discoverScan : List PS → Option PS
  | [] => none
  | l :: rest =>
    match lineCandidate l with
    | some v => some v
    | none => discoverScan rest

/-- `KdenliveDBus._discover_service`: fall back to the generic service name
when the tool is absent, the probe raises, or no advertised name matches. -/
def discoverService (dbusSendFound : Bool) (probe : RunOut) : PS :=
  if !dbusSendFound then DBUS_SERVICE
  else
    match probe with
    | .completed lines => (discoverScan lines).getD DBUS_SERVICE
    | _ => DBUS_SERVICE

/-! ## Result coercion in boolean wrappers (dbus_client.py lines 367-368 and
407-412)

`_call` results reaching the wrappers are native values on the binding path
and Python strings on the subprocess path; the wrapper either compares
`result.lower() == "true"` or applies bare `bool(...)` truthiness. -/

inductive PyVal where
  | s : PS → PyVal
  | b : Bool → PyVal
  | i : Int → PyVal
deriving Repr, DecidableEq

/-- Python `bool(x)` for the result shapes reaching the wrappers. -/
def pyTruthy : PyVal → Bool
  | .s v => !v.isEmpty
  | .b v => v
  | .i n => n != 0

/-- Python `str.lower()` (ASCII inputs). -/
def pyLower (v : PS) : PS := v.map Char.toLower

/-- `KdenliveDBus.set_project_color_space` result handling (lines 407-412):
`result.lower() == "true"` on strings, `bool(result)` otherwise. -/
def set_project_color_space (result : PyVal) : Bool :=
  match result with
  | .s v => pyLower v == lit "true"
  | _ => pyTruthy result

/-- `KdenliveDBus.save_project` result handling (lines 367-368):
`bool(self._call("scriptSaveProject"))`. -/
def save_project (result : PyVal) : Bool := pyTruthy result

/-! ## Track-id validation (dbus_client.py lines 604-628 and 647-651)

`_get_valid_track_ids` fetches the track list fresh; each guarded operation
is modelled as a function of that fetched id set, the requested track id and
the would-be remote result, recording whether the underlying remote call is
issued. -/

structure OpTrace (R : Type) where
  result : R
  remoteCalled : Bool
deriving Repr, DecidableEq

/-- `KdenliveDBus.insert_clip` (lines 604-609): `if valid and track_id not
in valid: return -1`. -/
def insert_clip (validIds : List Int) (trackId : Int) (remoteResult : Int) :
    OpTrace Int :=
  if !validIds.isEmpty && !validIds.contains trackId then ⟨-1, false⟩
  else ⟨remoteResult, true⟩

/-- `KdenliveDBus.insert_clips_sequentially` (lines 611-615): raises
`ValueError` (modelled as `Except.error ()`) on an invalid track id. -/
def insert_clips_sequentially (validIds : List Int) (trackId : Int)
    (remoteResult : List Int) : OpTrace (Except Unit (List Int)) :=
  if !validIds.isEmpty && !validIds.contains trackId then ⟨.error (), false⟩
  else ⟨.ok remoteResult, true⟩

/-- `KdenliveDBus.move_clip` (lines 624-628): returns `False` on an invalid
track id. -/
def move_clip (validIds : List Int) (trackId : Int) (remoteResult : Bool) :
    OpTrace Bool :=
  if !validIds.isEmpty && !validIds.contains trackId then ⟨false, false⟩
  else ⟨remoteResult, true⟩

/-- `KdenliveDBus.get_clips_on_track` (lines 647-651): returns `[]` on an
invalid track id.  The per-clip payload is abstract. -/
def get_clips_on_track (validIds : List Int) (trackId : Int)
    (remoteResult : List A) : OpTrace (List A) :=
  if !validIds.isEmpty && !validIds.contains trackId then ⟨[], false⟩
  else ⟨remoteResult, true⟩

/-! ## TimelineItem property cache (timeline.py lines 18-80)

`_info` is the lazily cached property snapshot (`none` models Python
`None`, i.e. the invalidated/empty cache).  Each mutating method is a
function of the handle and the result the underlying dbus call would
produce. -/

structure TimelineItem where
  clip_id : Int
  info : Option (List (PS × DVal))

namespace TimelineItem

/-- `TimelineItem.SetDuration` (lines 62-66): calls resize and sets
`self._info = None`. -/
def SetDuration (it : TimelineItem) (resizeResult : Int) :
    Int × TimelineItem :=
  (resizeResult, { it with info := none })

/-- `TimelineItem.Move` (lines 68-72): calls move and sets
`self._info = None`. -/
def Move (it : TimelineItem) (moveResult : Bool) : Bool × TimelineItem :=
  (moveResult, { it with info := none })

/-- `TimelineItem.Cut` (lines 78-80): calls cut and returns; `self._info`
is left untouched. -/
def Cut (it : TimelineItem) (cutResult : Bool) : Bool × TimelineItem :=
  (cutResult, it)

end TimelineItem

/-! ## Abstract array children for the `_parse_array` claims

A reply array's top-level children are described abstractly: a scalar child
is one line parsing to a value; a dict-entry child is the four-line block
`dict entry(`, key line, value line, `)`.  `ScalarLine l v` collects the
facts about the line that `_parse_dbus_value` and `_parse_array` branch on:
after stripping it is non-blank, not a bracket or dict-entry token, not the
start of a multi-line string, parses as a scalar with value `v`, and is not
a `method return` header. -/

def ScalarLine (l v : PS) : Prop :=
  (strip l == ([] : PS)) = false
  ∧ (strip l == lit ")") = false
  ∧ (startswith (strip l) (lit "string \"")
      && !endswith (strip l) (lit "\"")) = false
  ∧ parseScalar (strip l) = some v
  ∧ (strip l == lit "]") = false
  ∧ (strip l == lit "dict entry(") = false
  ∧ startswith (strip l) (lit "method return ") = false

instance (l v : PS) : Decidable (ScalarLine l v) := by
  unfold ScalarLine
  infer_instance

inductive Child where
  | sc : PS → PS → Child
  | ent : PS → PS → PS → PS → PS → PS → Child

/-- The reply lines of one child. -/
def Child.lines : Child → List PS
  | .sc l _ => [l]
  | .ent l1 l2 l3 l4 _ _ => [l1, l2, l3, l4]

/-- The parsed value of one child. -/
def Child.val : Child → DVal
  | .sc _ v => .str v
  | .ent _ _ _ _ k v => .pair (.str k) (.str v)

def Child.isEnt : Child → Bool
  | .sc _ _ => false
  | .ent _ _ _ _ _ _ => true

/-- Well-formedness of a child's lines with respect to its value. -/
def Child.ok : Child → Prop
  | .sc l v => ScalarLine l v
  | .ent l1 l2 l3 l4 k v =>
      strip l1 = lit "dict entry(" ∧ ScalarLine l2 k ∧ ScalarLine l3 v
      ∧ strip l4 = lit ")"

instance (c : Child) : Decidable c.ok := by
  cases c <;> simp only [Child.ok] <;> infer_instance

/-- The full reply text of an array with the given children. -/
def arrayPayload (cs : List Child) : List PS :=
  lit "array [" :: ((cs.map Child.lines).flatten ++ [lit "]"])

/-- The key slot of a parsed 2-tuple (used to state Python dict key
distinctness). -/
def pairKey : DVal → DVal
  | .pair k _ => k
  | d => d

/-- The matcher C6 describes: known service prefix, separator, and a
NUMERIC suffix.  The source checks only the prefix and the separator. -/
def numericSuffixMatch (v : PS) : Bool :=
  startswith v (DBUS_SERVICE_PREFIX ++ [ '-' ])
  && !(v.drop 17).isEmpty && (v.drop 17).all Char.isDigit

example : parseReply [lit "int32 5"] = .str (lit "5") := rfl
example : parseReply [lit "string \"hello\""] = .str (lit "hello") := rfl
example :
    parseReply [lit "array [", lit "dict entry(", lit "string \"k\"",
      lit "string \"v\"", lit ")", lit "string \"\"", lit "]"]
    = .map [.pair (.str (lit "k")) (.str (lit "v"))] := rfl
example :
    parseReply [lit "array [", lit "string \"a\"", lit "string \"\"",
      lit "string \"b\"", lit "]"]
    = .arr [.str (lit "a"), .str (lit "b")] := rfl
example :
    parseReply [lit "string \"line one", lit "line two", lit "line three\""]
    = .str (lit "line one\nline two\nline three") := rfl
example : parseReply [lit "array [", lit "]"] = .arr [] := rfl

/-! ## Helper lemmas about the Python string operations -/

theorem lstrip_of_head (c : Char) (t : PS) (hc : pyIsSpace c = false) :
    lstrip (c :: t) = c :: t := by
  simp [lstrip, List.dropWhile_cons, hc]

theorem rstrip_append (x v : PS) (hv : rstrip v = v) (hne : v ≠ []) :
    rstrip (x ++ v) = x ++ v := by
  have hrev : v.reverse.dropWhile pyIsSpace = v.reverse := by
    have h := congrArg List.reverse hv
    simpa [rstrip] using h
  have hrne : v.reverse.isEmpty = false := by
    simp [List.isEmpty_iff, hne]
  unfold rstrip
  rw [List.reverse_append, List.dropWhile_append, hrev, hrne]
  simp

theorem strip_head_last (c : Char) (t v : PS) (hc : pyIsSpace c = false)
    (hv : rstrip v = v) (hne : v ≠ []) :
    strip ((c :: t) ++ v) = (c :: t) ++ v := by
  unfold strip
  rw [show (c :: t) ++ v = c :: (t ++ v) from rfl,
    lstrip_of_head c (t ++ v) hc]
  exact rstrip_append (c :: t) v hv hne

theorem startswith_append_of_le (x v p : PS) (h : p.length ≤ x.length) :
    startswith (x ++ v) p = startswith x p := by
  have hiff : p <+: (x ++ v) ↔ p <+: x := by
    rw [List.prefix_iff_eq_take, List.prefix_iff_eq_take,
      List.take_append_of_le_length h]
  unfold startswith
  cases h1 : p.isPrefixOf x with
  | true =>
    exact List.isPrefixOf_iff_prefix.mpr
      (hiff.mpr (List.isPrefixOf_iff_prefix.mp h1))
  | false =>
    rw [Bool.eq_false_iff]
    intro hc
    have := hiff.mp (List.isPrefixOf_iff_prefix.mp hc)
    rw [List.isPrefixOf_iff_prefix.mpr this] at h1
    cases h1

theorem startswith_head_ne (c d : Char) (t p : PS) (h : (d == c) = false) :
    startswith (c :: t) (d :: p) = false := by
  simp only [startswith, List.isPrefixOf, h, Bool.false_and]

theorem endswith_concat_quote (x : PS) :
    endswith (x ++ lit "\"") (lit "\"") = true := by
  unfold endswith
  rw [List.isSuffixOf_iff_suffix]
  exact List.suffix_append x (lit "\"")

/-! ## `_parse_scalar` on each scalar form -/

theorem parseScalar_string (s : PS) :
    parseScalar (lit "string \"" ++ s ++ lit "\"") = some s := by
  have hassoc : lit "string \"" ++ s ++ lit "\""
      = lit "string \"" ++ (s ++ lit "\"") := List.append_assoc _ _ _
  have hpre : startswith (lit "string \"" ++ s ++ lit "\"")
      (lit "string \"") = true := by
    rw [hassoc, startswith_append_of_le _ _ _ (by decide)]
    decide
  have hend : endswith (lit "string \"" ++ s ++ lit "\"")
      (lit "\"") = true := endswith_concat_quote (lit "string \"" ++ s)
  unfold parseScalar
  rw [hpre, hend]
  simp only [if_true]
  have hdrop : (lit "string \"" ++ s ++ lit "\"").drop 8 = s ++ lit "\"" := by
    rw [hassoc, show (8 : Nat) = (lit "string \"").length from rfl,
      List.drop_left]
  rw [hdrop, show (lit "\"") = [ '"' ] from rfl, List.dropLast_concat]

theorem parseScalar_int32 (v : PS) :
    parseScalar (lit "int32 " ++ v) = some v := by
  unfold parseScalar
  rw [show lit "int32 " ++ v = 'i' :: (lit "nt32 " ++ v) from rfl,
    show lit "string \"" = 's' :: lit "tring \"" from rfl,
    startswith_head_ne _ _ _ _ (by decide),
    show 'i' :: (lit "nt32 " ++ v) = lit "int32 " ++ v from rfl,
    startswith_append_of_le _ _ (lit "int32 ") (by decide)]
  simp only [show startswith (lit "int32 ") (lit "int32 ") = true from rfl,
    if_true, if_false, Bool.false_eq_true, eq_self_iff_true]
  rw [show (6 : Nat) = (lit "int32 ").length from rfl, List.drop_left]

theorem parseScalar_int64 (v : PS) :
    parseScalar (lit "int64 " ++ v) = some v := by
  unfold parseScalar
  rw [show lit "int64 " ++ v = 'i' :: (lit "nt64 " ++ v) from rfl,
    show lit "string \"" = 's' :: lit "tring \"" from rfl,
    startswith_head_ne _ _ _ _ (by decide),
    show 'i' :: (lit "nt64 " ++ v) = lit "int64 " ++ v from rfl]
  rw [startswith_append_of_le _ _ (lit "int32 ") (by decide),
    startswith_append_of_le _ _ (lit "int64 ") (by decide)]
  simp only [show startswith (lit "int64 ") (lit "int32 ") = false from rfl,
    show startswith (lit "int64 ") (lit "int64 ") = true from rfl,
    if_true, if_false, Bool.false_eq_true, eq_self_iff_true]
  rw [show (6 : Nat) = (lit "int64 ").length from rfl, List.drop_left]

theorem parseScalar_uint32 (v : PS) :
    parseScalar (lit "uint32 " ++ v) = some v := by
  unfold parseScalar
  rw [show lit "uint32 " ++ v = 'u' :: (lit "int32 " ++ v) from rfl,
    show lit "string \"" = 's' :: lit "tring \"" from rfl,
    startswith_head_ne _ _ _ _ (by decide),
    show 'u' :: (lit "int32 " ++ v) = lit "uint32 " ++ v from rfl]
  rw [startswith_append_of_le _ _ (lit "int32 ") (by decide),
    startswith_append_of_le _ _ (lit "int64 ") (by decide),
    startswith_append_of_le _ _ (lit "uint32 ") (by decide)]
  simp only [show startswith (lit "uint32 ") (lit "int32 ") = false from rfl,
    show startswith (lit "uint32 ") (lit "int64 ") = false from rfl,
    show startswith (lit "uint32 ") (lit "uint32 ") = true from rfl,
    if_true, if_false, Bool.false_eq_true, eq_self_iff_true]
  rw [show (7 : Nat) = (lit "uint32 ").length from rfl, List.drop_left]

theorem parseScalar_uint64 (v : PS) :
    parseScalar (lit "uint64 " ++ v) = some v := by
  unfold parseScalar
  rw [show lit "uint64 " ++ v = 'u' :: (lit "int64 " ++ v) from rfl,
    show lit "string \"" = 's' :: lit "tring \"" from rfl,
    startswith_head_ne _ _ _ _ (by decide),
    show 'u' :: (lit "int64 " ++ v) = lit "uint64 " ++ v from rfl]
  rw [startswith_append_of_le _ _ (lit "int32 ") (by decide),
    startswith_append_of_le _ _ (lit "int64 ") (by decide),
    startswith_append_of_le _ _ (lit "uint32 ") (by decide),
    startswith_append_of_le _ _ (lit "uint64 ") (by decide)]
  simp only [show startswith (lit "uint64 ") (lit "int32 ") = false from rfl,
    show startswith (lit "uint64 ") (lit "int64 ") = false from rfl,
    show startswith (lit "uint64 ") (lit "uint32 ") = false from rfl,
    show startswith (lit "uint64 ") (lit "uint64 ") = true from rfl,
    if_true, if_false, Bool.false_eq_true, eq_self_iff_true]
  rw [show (7 : Nat) = (lit "uint64 ").length from rfl, List.drop_left]

theorem parseScalar_double (v : PS) :
    parseScalar (lit "double " ++ v) = some v := by
  unfold parseScalar
  rw [show lit "double " ++ v = 'd' :: (lit "ouble " ++ v) from rfl,
    show lit "string \"" = 's' :: lit "tring \"" from rfl,
    startswith_head_ne _ _ _ _ (by decide),
    show 'd' :: (lit "ouble " ++ v) = lit "double " ++ v from rfl]
  rw [startswith_append_of_le _ _ (lit "int32 ") (by decide),
    startswith_append_of_le _ _ (lit "int64 ") (by decide),
    startswith_append_of_le _ _ (lit "uint32 ") (by decide),
    startswith_append_of_le _ _ (lit "uint64 ") (by decide),
    startswith_append_of_le _ _ (lit "double ") (by decide)]
  simp only [show startswith (lit "double ") (lit "int32 ") = false from rfl,
    show startswith (lit "double ") (lit "int64 ") = false from rfl,
    show startswith (lit "double ") (lit "uint32 ") = false from rfl,
    show startswith (lit "double ") (lit "uint64 ") = false from rfl,
    show startswith (lit "double ") (lit "double ") = true from rfl,
    if_true, if_false, Bool.false_eq_true, eq_self_iff_true]
  rw [show (7 : Nat) = (lit "double ").length from rfl, List.drop_left]

theorem parseScalar_boolean (v : PS) :
    parseScalar (lit "boolean " ++ v) = some v := by
  unfold parseScalar
  rw [startswith_append_of_le _ _ (lit "string \"") (by decide),
    startswith_append_of_le _ _ (lit "int32 ") (by decide),
    startswith_append_of_le _ _ (lit "int64 ") (by decide),
    startswith_append_of_le _ _ (lit "uint32 ") (by decide),
    startswith_append_of_le _ _ (lit "uint64 ") (by decide),
    startswith_append_of_le _ _ (lit "double ") (by decide),
    startswith_append_of_le _ _ (lit "boolean ") (by decide)]
  simp only [show startswith (lit "boolean ") (lit "string \"") = false from rfl,
    show startswith (lit "boolean ") (lit "int32 ") = false from rfl,
    show startswith (lit "boolean ") (lit "int64 ") = false from rfl,
    show startswith (lit "boolean ") (lit "uint32 ") = false from rfl,
    show startswith (lit "boolean ") (lit "uint64 ") = false from rfl,
    show startswith (lit "boolean ") (lit "double ") = false from rfl,
    show startswith (lit "boolean ") (lit "boolean ") = true from rfl,
    if_true, if_false, Bool.false_eq_true, eq_self_iff_true]
  rw [show (8 : Nat) = (lit "boolean ").length from rfl, List.drop_left]

/-! ## Single-step evaluation of `_parse_dbus_value` on a scalar line -/

theorem parseVal_scalar_step (f : Nat) (l : PS) (v : PS) (rest : List PS)
    (hne : (strip l == ([] : PS)) = false)
    (hnp : (strip l == lit ")") = false)
    (hml : (startswith (strip l) (lit "string \"")
      && !endswith (strip l) (lit "\"")) = false)
    (hsc : parseScalar (strip l) = some v) :
    parseVal (f + 1) (l :: rest) = (.str v, rest) := by
  simp only [parseVal, hne, hnp, hml, hsc, Bool.or_self, Bool.false_eq_true,
    if_false]

/-- A reply with a single payload line parsing as a scalar. -/
theorem parseReply_single_scalar (l v : PS)
    (hmr : startswith (strip l) (lit "method return ") = false)
    (hne : (strip l == ([] : PS)) = false)
    (hnp : (strip l == lit ")") = false)
    (hml : (startswith (strip l) (lit "string \"")
      && !endswith (strip l) (lit "\"")) = false)
    (hsc : parseScalar (strip l) = some v) :
    parseReply [l] = .str v := by
  unfold parseReply
  simp only [List.filter, hmr, Bool.not_false, List.length_cons,
    List.length_nil, List.isEmpty_cons, if_false, Bool.false_eq_true]
  rw [show 2 * (0 + 1) + 2 = 3 + 1 from rfl,
    parseVal_scalar_step 3 l v [] hne hnp hml hsc]

theorem beq_nil_of_cons (c : Char) (t : PS) :
    ((c :: t : PS) == ([] : PS)) = false := rfl

theorem beq_head_ne (c d : Char) (t p : PS) (h : (c == d) = false) :
    ((c :: t : PS) == (d :: p : PS)) = false := by
  rw [List.cons_beq_cons, h, Bool.false_and]

/-- A reply consisting of one tagged scalar line `tag ++ v` parses to the
bare value. -/
theorem parseReply_tagged_line (tag : PS) (c : Char) (tt v : PS)
    (htag : tag = c :: tt) (hc : pyIsSpace c = false)
    (hcm : ('m' == c) = false) (hcr : (c == ')') = false)
    (hsw : startswith (tag ++ v) (lit "string \"") = false)
    (hps : parseScalar (tag ++ v) = some v)
    (hne : v ≠ []) (hvr : rstrip v = v) :
    parseReply [tag ++ v] = .str v := by
  have hstrip : strip (tag ++ v) = tag ++ v := by
    rw [htag]
    exact strip_head_last c tt v hc hvr hne
  apply parseReply_single_scalar _ v
  · rw [hstrip, htag,
      show lit "method return " = 'm' :: lit "ethod return " from rfl]
    exact startswith_head_ne c 'm' (tt ++ v) (lit "ethod return ") hcm
  · rw [hstrip, htag]
    exact beq_nil_of_cons c (tt ++ v)
  · rw [hstrip, htag, show lit ")" = ')' :: ([] : PS) from rfl]
    exact beq_head_ne c ')' (tt ++ v) [] hcr
  · rw [hstrip, hsw, Bool.false_and]
  · rw [hstrip]
    exact hps

/-! ## C2: scalar reply lines -/

/-- C2: a reply whose body is a single scalar-typed line returns the
unwrapped value with no residual type-tag text; a `string` value is
unquoted by trimming exactly one leading and one trailing quote (the
leading one as part of the 8-character `string "` tag, the trailing one by
dropping the final character).  The parser returns the value text; numeric
and boolean values are coerced by the callers.  The hypotheses say only
that the tagged value is present (non-empty) and carries no trailing
whitespace, as printed by the tool. -/
theorem c2_scalar_reply (s v : PS) (hne : v ≠ []) (hvr : rstrip v = v) :
    parseReply [lit "string \"" ++ s ++ lit "\""] = .str s
    ∧ parseReply [lit "int32 " ++ v] = .str v
    ∧ parseReply [lit "int64 " ++ v] = .str v
    ∧ parseReply [lit "uint32 " ++ v] = .str v
    ∧ parseReply [lit "uint64 " ++ v] = .str v
    ∧ parseReply [lit "double " ++ v] = .str v
    ∧ parseReply [lit "boolean " ++ v] = .str v := by
  refine ⟨?_, ?_, ?_, ?_, ?_, ?_, ?_⟩
  · have hstrip : strip (lit "string \"" ++ s ++ lit "\"")
        = lit "string \"" ++ s ++ lit "\"" := by
      exact strip_head_last 's' (lit "tring \"" ++ s) (lit "\"")
        (by decide) (by decide) (by decide)
    apply parseReply_single_scalar _ s
    · rw [hstrip,
        show lit "string \"" ++ s ++ lit "\""
          = 's' :: ((lit "tring \"" ++ s) ++ lit "\"") from rfl,
        show lit "method return " = 'm' :: lit "ethod return " from rfl]
      exact startswith_head_ne _ _ _ _ (by decide)
    · rw [hstrip,
        show lit "string \"" ++ s ++ lit "\""
          = 's' :: ((lit "tring \"" ++ s) ++ lit "\"") from rfl]
      exact beq_nil_of_cons _ _
    · rw [hstrip,
        show lit "string \"" ++ s ++ lit "\""
          = 's' :: ((lit "tring \"" ++ s) ++ lit "\"") from rfl,
        show lit ")" = ')' :: ([] : PS) from rfl]
      exact beq_head_ne _ _ _ _ (by decide)
    · rw [hstrip, endswith_concat_quote (lit "string \"" ++ s)]
      simp
    · rw [hstrip]
      exact parseScalar_string s
  · exact parseReply_tagged_line (lit "int32 ") 'i' (lit "nt32 ") v rfl
      (by decide) (by decide) (by decide)
      (by rw [show lit "int32 " ++ v = 'i' :: (lit "nt32 " ++ v) from rfl,
            show lit "string \"" = 's' :: lit "tring \"" from rfl]
          exact startswith_head_ne _ _ _ _ (by decide))
      (parseScalar_int32 v) hne hvr
  · exact parseReply_tagged_line (lit "int64 ") 'i' (lit "nt64 ") v rfl
      (by decide) (by decide) (by decide)
      (by rw [show lit "int64 " ++ v = 'i' :: (lit "nt64 " ++ v) from rfl,
            show lit "string \"" = 's' :: lit "tring \"" from rfl]
          exact startswith_head_ne _ _ _ _ (by decide))
      (parseScalar_int64 v) hne hvr
  · exact parseReply_tagged_line (lit "uint32 ") 'u' (lit "int32 ") v rfl
      (by decide) (by decide) (by decide)
      (by rw [show lit "uint32 " ++ v = 'u' :: (lit "int32 " ++ v) from rfl,
            show lit "string \"" = 's' :: lit "tring \"" from rfl]
          exact startswith_head_ne _ _ _ _ (by decide))
      (parseScalar_uint32 v) hne hvr
  · exact parseReply_tagged_line (lit "uint64 ") 'u' (lit "int64 ") v rfl
      (by decide) (by decide) (by decide)
      (by rw [show lit "uint64 " ++ v = 'u' :: (lit "int64 " ++ v) from rfl,
            show lit "string \"" = 's' :: lit "tring \"" from rfl]
          exact startswith_head_ne _ _ _ _ (by decide))
      (parseScalar_uint64 v) hne hvr
  · exact parseReply_tagged_line (lit "double ") 'd' (lit "ouble ") v rfl
      (by decide) (by decide) (by decide)
      (by rw [show lit "double " ++ v = 'd' :: (lit "ouble " ++ v) from rfl,
            show lit "string \"" = 's' :: lit "tring \"" from rfl]
          exact startswith_head_ne _ _ _ _ (by decide))
      (parseScalar_double v) hne hvr
  · exact parseReply_tagged_line (lit "boolean ") 'b' (lit "oolean ") v rfl
      (by decide) (by decide) (by decide)
      (by rw [show lit "boolean " ++ v = 'b' :: (lit "oolean " ++ v) from rfl,
            show lit "string \"" = 's' :: lit "tring \"" from rfl]
          exact startswith_head_ne _ _ _ _ (by decide))
      (parseScalar_boolean v) hne hvr

/-- C2 witness: `string "x"`, `int32 5` and `boolean true` lines. -/
theorem c2_scalar_reply_witness :
    parseReply [lit "string \"x\""] = .str (lit "x")
    ∧ parseReply [lit "int32 5"] = .str (lit "5")
    ∧ parseReply [lit "boolean true"] = .str (lit "true") := by
  have h5 := c2_scalar_reply (lit "x") (lit "5") (by decide) (by decide)
  have ht := c2_scalar_reply (lit "x") (lit "true") (by decide) (by decide)
  exact ⟨h5.1, h5.2.1, ht.2.2.2.2.2.2⟩

/-! ## Step lemmas for `_parse_dbus_value` on array content -/

/-- A dict-entry block consumes its four lines and yields the (key, value)
tuple. -/
theorem parseVal_entry_step (f : Nat) (l1 l2 l3 l4 k v : PS)
    (rest : List PS)
    (h1 : strip l1 = lit "dict entry(")
    (h2 : ScalarLine l2 k) (h3 : ScalarLine l3 v)
    (h4 : strip l4 = lit ")") :
    parseVal (f + 2) (l1 :: l2 :: l3 :: l4 :: rest)
      = (.pair (.str k) (.str v), rest) := by
  obtain ⟨a1, a2, a3, a4, _, _, _⟩ := h2
  obtain ⟨b1, b2, b3, b4, _, _, _⟩ := h3
  show parseVal ((f + 1) + 1) (l1 :: l2 :: l3 :: l4 :: rest) = _
  simp only [parseVal, h1, a1, a2, a3, a4, b1, b2, b3, b4, h4,
    show ((lit "dict entry(" == ([] : PS))
      || (lit "dict entry(" == lit ")")) = false from rfl,
    show (startswith (lit "dict entry(") (lit "string \"")
      && !endswith (lit "dict entry(") (lit "\"")) = false from rfl,
    show parseScalar (lit "dict entry(") = none from rfl,
    show startswith (lit "dict entry(") (lit "variant") = false from rfl,
    show (lit "dict entry(" == lit "array [") = false from rfl,
    show (lit "dict entry(" == lit "]") = false from rfl,
    show (lit "dict entry(" == lit "dict entry(") = true from rfl,
    show ((lit ")" : PS) == lit ")") = true from rfl,
    Bool.false_eq_true, Bool.or_self, Bool.false_or, if_false, if_true]

/-- The `array [` line hands over to `_parse_array`. -/
theorem parseVal_arrayOpen_step (g : Nat) (R : List PS) :
    parseVal (g + 1) ((lit "array [") :: R) = parseArr g R := by
  simp only [parseVal,
    show strip (lit "array [") = lit "array [" from rfl,
    show ((lit "array [" == ([] : PS))
      || (lit "array [" == lit ")")) = false from rfl,
    show (startswith (lit "array [") (lit "string \"")
      && !endswith (lit "array [") (lit "\"")) = false from rfl,
    show parseScalar (lit "array [") = none from rfl,
    show startswith (lit "array [") (lit "variant") = false from rfl,
    show ((lit "array [" : PS) == lit "array [") = true from rfl,
    Bool.false_eq_true, if_false, if_true]

/-- The collection loop of `_parse_array` over well-formed children
followed by the closing bracket: it collects the non-empty child values in
order, records whether a top-level dict entry was seen, and finishes. -/
theorem parseArrGo_spec (cs : List Child) (hok : ∀ c ∈ cs, c.ok)
    (rest : List PS) (f : Nat) (items : List DVal) (flag : Bool) :
    parseArrGo (cs.length + f + 2)
      ((cs.map Child.lines).flatten ++ (lit "]") :: rest) items flag
      = (finishArr (flag || cs.any Child.isEnt)
          (items ++ (cs.map Child.val).filter keepVal), rest) := by
  induction cs generalizing f items flag with
  | nil =>
    show parseArrGo ((0 + f + 1) + 1)
      (([] : List (List PS)).flatten ++ (lit "]") :: rest) items flag = _
    simp only [List.flatten_nil, List.nil_append, parseArrGo,
      show ((strip (lit "]") == lit "]")) = true from rfl, if_true,
      List.map_nil, List.any_nil, Bool.or_false, List.filter_nil,
      List.append_nil]
  | cons c cs ih =>
    have hfe : (c :: cs).length + f + 2 = (cs.length + f + 2) + 1 := by
      simp only [List.length_cons]
      omega
    rw [hfe]
    cases c with
    | sc l v =>
      obtain ⟨s1, s2, s3, s4, s5, s6, s7⟩ := hok (.sc l v) (by simp)
      have e : parseVal (cs.length + f + 2)
          (l :: ((cs.map Child.lines).flatten ++ (lit "]") :: rest))
          = (.str v, (cs.map Child.lines).flatten ++ (lit "]") :: rest) :=
        parseVal_scalar_step (cs.length + f + 1) l v _ s1 s2 s3 s4
      simp only [List.map_cons, List.flatten_cons, Child.lines,
        List.append_eq, List.cons_append, List.nil_append, parseArrGo, s5, s6,
        Bool.false_eq_true, if_false]
      rw [e]
      rw [ih (fun x hx => hok x (by simp [hx])) f]
      simp only [List.any_cons, Child.isEnt, Bool.false_or, List.filter_cons,
        Child.val]
      cases hk : keepVal (DVal.str v) with
      | true => simp [List.append_assoc]
      | false => simp
    | ent l1 l2 l3 l4 k v =>
      obtain ⟨h1, h2, h3, h4⟩ := hok (.ent l1 l2 l3 l4 k v) (by simp)
      have e : parseVal (cs.length + f + 2)
          (l1 :: l2 :: l3 :: l4 ::
            ((cs.map Child.lines).flatten ++ (lit "]") :: rest))
          = (.pair (.str k) (.str v),
            (cs.map Child.lines).flatten ++ (lit "]") :: rest) :=
        parseVal_entry_step (cs.length + f) l1 l2 l3 l4 k v _ h1 h2 h3 h4
      simp only [List.map_cons, List.flatten_cons, Child.lines,
        List.append_eq, List.cons_append, List.nil_append, parseArrGo, h1,
        show ((lit "dict entry(" == lit "]")) = false from rfl,
        show ((lit "dict entry(" == lit "dict entry(")) = true from rfl,
        Bool.false_eq_true, if_false, if_true]
      rw [e]
      simp only [show keepVal (DVal.pair (DVal.str k) (DVal.str v))
        = true from rfl, if_true]
      rw [ih (fun x hx => hok x (by simp [hx])) f]
      simp only [List.any_cons, Child.isEnt, Bool.true_or, Bool.or_true,
        List.filter_cons, Child.val,
        show keepVal (DVal.pair (DVal.str k) (DVal.str v)) = true from rfl,
        if_true, List.append_assoc, List.cons_append, List.nil_append]

/-- Every child contributes at least one reply line. -/
theorem child_lines_length_le (cs : List Child) :
    cs.length ≤ ((cs.map Child.lines).flatten).length := by
  induction cs with
  | nil => simp
  | cons c cs ih =>
    simp only [List.map_cons, List.flatten_cons, List.length_append,
      List.length_cons]
    cases c <;> simp only [Child.lines, List.length_cons,
      List.length_nil] <;> omega

/-- No well-formed child line is a `method return` header. -/
theorem child_filter_ok (cs : List Child) (hok : ∀ c ∈ cs, c.ok) :
    ∀ l ∈ (cs.map Child.lines).flatten,
      (!startswith (strip l) (lit "method return ")) = true := by
  intro l hl
  rw [List.mem_flatten] at hl
  obtain ⟨s, hs, hls⟩ := hl
  rw [List.mem_map] at hs
  obtain ⟨c, hc, hcl⟩ := hs
  have hco := hok c hc
  cases c with
  | sc l0 v0 =>
    obtain ⟨_, _, _, _, _, _, s7⟩ := hco
    rw [← hcl] at hls
    simp only [Child.lines, List.mem_singleton] at hls
    subst hls
    simp [s7]
  | ent l1 l2 l3 l4 k v =>
    obtain ⟨h1, h2, h3, h4⟩ := hco
    rw [← hcl] at hls
    simp only [Child.lines, List.mem_cons, List.mem_singleton,
      List.not_mem_nil, or_false] at hls
    rcases hls with h | h | h | h <;> subst h
    · rw [h1]; decide
    · simp [h2.2.2.2.2.2.2]
    · simp [h3.2.2.2.2.2.2]
    · rw [h4]; decide

/-- `_parse_dbus_send_output` on an array reply with well-formed children:
the result is the `_parse_array` finish over the kept child values. -/
theorem parseReply_array (cs : List Child) (hok : ∀ c ∈ cs, c.ok) :
    parseReply (arrayPayload cs)
      = finishArr (cs.any Child.isEnt)
          ((cs.map Child.val).filter keepVal) := by
  have hJ := child_lines_length_le cs
  have hfilter : (arrayPayload cs).filter
      (fun l => !startswith (strip l) (lit "method return "))
      = arrayPayload cs := by
    rw [List.filter_eq_self]
    intro a ha
    unfold arrayPayload at ha
    rcases List.mem_cons.mp ha with h | h
    · subst h; decide
    · rcases List.mem_append.mp h with h2 | h2
      · exact child_filter_ok cs hok a h2
      · simp only [List.mem_singleton] at h2
        subst h2; decide
  unfold parseReply
  rw [hfilter]
  unfold arrayPayload
  simp only [List.isEmpty_cons, Bool.false_eq_true, if_false]
  have hflen : (lit "array [" ::
      ((cs.map Child.lines).flatten ++ [lit "]"])).length
      = ((cs.map Child.lines).flatten).length + 2 := by
    simp
  rw [hflen,
    show 2 * (((cs.map Child.lines).flatten).length + 2) + 2
      = (2 * ((cs.map Child.lines).flatten).length + 5) + 1 from by omega,
    parseVal_arrayOpen_step,
    show 2 * ((cs.map Child.lines).flatten).length + 5
      = (2 * ((cs.map Child.lines).flatten).length + 4) + 1 from rfl]
  simp only [parseArr]
  rw [show 2 * ((cs.map Child.lines).flatten).length + 4
      = cs.length + (2 * ((cs.map Child.lines).flatten).length + 2
        - cs.length) + 2 from by omega,
    show ([lit "]"] : List PS) = (lit "]") :: [] from rfl,
    parseArrGo_spec cs hok [] _ [] false]
  simp

/-! ## Python `dict` construction -/

theorem pydictUpd_append (acc : List DVal) (k v : DVal)
    (h : ∀ a ∈ acc, dvalBEq (pairKey a) k = false) :
    pydictUpd acc k v = acc ++ [.pair k v] := by
  induction acc with
  | nil => rfl
  | cons a t ih =>
    have hrec := ih (fun x hx => h x (by simp [hx]))
    cases a with
    | pair k0 v0 =>
      have hk := h (.pair k0 v0) (by simp)
      simp only [pairKey] at hk
      simp only [pydictUpd, hk, Bool.false_eq_true, if_false, hrec,
        List.cons_append]
    | str s => simp only [pydictUpd, hrec, List.cons_append]
    | arr xs => simp only [pydictUpd, hrec, List.cons_append]
    | map xs => simp only [pydictUpd, hrec, List.cons_append]

theorem pydict_foldl (items : List DVal)
    (hpairs : ∀ i ∈ items, isPairV i = true)
    (hkeys : items.Pairwise
      (fun a b => dvalBEq (pairKey a) (pairKey b) = false))
    (acc : List DVal)
    (hdisj : ∀ a ∈ acc, ∀ i ∈ items,
      dvalBEq (pairKey a) (pairKey i) = false) :
    items.foldl pydictStep acc = acc ++ items := by
  induction items generalizing acc with
  | nil => simp
  | cons i t ih =>
    cases i with
    | pair k v =>
      simp only [List.foldl_cons, pydictStep]
      rw [pydictUpd_append acc k v (fun a ha => by
        simpa [pairKey] using hdisj a ha (.pair k v) (by simp))]
      have hnext := ih (fun j hj => hpairs j (by simp [hj]))
        (List.pairwise_cons.mp hkeys).2 (acc ++ [.pair k v])
        (fun a ha j hj => by
          rcases List.mem_append.mp ha with h | h
          · exact hdisj a h j (by simp [hj])
          · simp only [List.mem_singleton] at h
            subst h
            simpa [pairKey] using (List.pairwise_cons.mp hkeys).1 j hj)
      rw [hnext]
      simp
    | str s => exact absurd (hpairs (.str s) (by simp)) (by simp [isPairV])
    | arr xs => exact absurd (hpairs (.arr xs) (by simp)) (by simp [isPairV])
    | map xs => exact absurd (hpairs (.map xs) (by simp)) (by simp [isPairV])

/-- `dict(items)` keeps the pairs in order when the keys are distinct. -/
theorem pydict_eq_self (items : List DVal)
    (hpairs : ∀ i ∈ items, isPairV i = true)
    (hkeys : items.Pairwise
      (fun a b => dvalBEq (pairKey a) (pairKey b) = false)) :
    pydict items = items := by
  unfold pydict
  rw [pydict_foldl items hpairs hkeys [] (by simp)]
  simp

/-! ## C1: dict-entry arrays become maps, others sequences -/

/-- C1 counterexample: an array whose children are one dict entry and one
`string ""` scalar — the latter is not a (key, value) pair, so per the
claim the parser must return a sequence.  The source drops the
empty-string child before the all-pairs check and returns a mapping. -/
theorem c1_counterexample :
    parseReply [lit "array [", lit "dict entry(", lit "string \"k\"",
      lit "string \"v\"", lit ")", lit "string \"\"", lit "]"]
      = .map [.pair (.str (lit "k")) (.str (lit "v"))]
    ∧ isPairV (.str (lit "")) = false :=
  ⟨rfl, rfl⟩

/-- C1 (amended): for an array of well-formed children, child values equal
to the empty string are dropped first; if every RETAINED child value is a
(key, value) pair produced by dict-entry parsing — with at least one
dict-entry open token seen at the array's top level, at least one value
retained, and the retained keys pairwise distinct — the result is a
mapping whose keys and values match the retained pairs in order; if any
retained child value is not such a pair the result is the ordered sequence
of the retained values.  Children whose value is dropped (e.g. `string ""`
scalars) may sit between the dict entries without forcing a sequence. -/
theorem c1_dict_entry_arrays (cs : List Child) (hok : ∀ c ∈ cs, c.ok) :
    ((cs.map Child.val).filter keepVal ≠ [] →
      cs.any Child.isEnt = true →
      (∀ i ∈ (cs.map Child.val).filter keepVal, isPairV i = true) →
      ((cs.map Child.val).filter keepVal).Pairwise
        (fun a b => dvalBEq (pairKey a) (pairKey b) = false) →
      parseReply (arrayPayload cs)
        = .map ((cs.map Child.val).filter keepVal))
    ∧ (((cs.map Child.val).filter keepVal).any (fun i => !isPairV i)
        = true →
      parseReply (arrayPayload cs)
        = .arr ((cs.map Child.val).filter keepVal)) := by
  constructor
  · intro hne hany hpairs hkeys
    rw [parseReply_array cs hok]
    have hnemp : ((cs.map Child.val).filter keepVal).isEmpty = false := by
      simpa [List.isEmpty_iff] using hne
    have hall : ((cs.map Child.val).filter keepVal).all isPairV = true :=
      List.all_eq_true.mpr hpairs
    unfold finishArr
    rw [hany, hnemp, hall]
    simp only [Bool.not_false, Bool.and_true, Bool.true_and, if_true]
    rw [pydict_eq_self _ hpairs hkeys]
  · intro hsome
    rw [parseReply_array cs hok]
    have hall : ((cs.map Child.val).filter keepVal).all isPairV = false := by
      rw [List.all_eq_false]
      rw [List.any_eq_true] at hsome
      obtain ⟨x, hx, hpx⟩ := hsome
      exact ⟨x, hx, by simpa using hpx⟩
    unfold finishArr
    rw [hall]
    simp

/-- C1 witness: a dict entry, a dropped `string ""` child and another dict
entry give a mapping of the two retained pairs in order; a dict entry plus
a non-empty scalar gives a sequence. -/
theorem c1_dict_entry_arrays_witness :
    parseReply (arrayPayload
      [.ent (lit "dict entry(") (lit "string \"a\"") (lit "string \"1\"")
        (lit ")") (lit "a") (lit "1"),
       .sc (lit "string \"\"") (lit ""),
       .ent (lit "dict entry(") (lit "string \"b\"") (lit "string \"2\"")
        (lit ")") (lit "b") (lit "2")])
      = .map [.pair (.str (lit "a")) (.str (lit "1")),
              .pair (.str (lit "b")) (.str (lit "2"))]
    ∧ parseReply (arrayPayload
      [.ent (lit "dict entry(") (lit "string \"a\"") (lit "string \"1\"")
        (lit ")") (lit "a") (lit "1"),
       .sc (lit "string \"x\"") (lit "x")])
      = .arr [.pair (.str (lit "a")) (.str (lit "1")), .str (lit "x")] := by
  constructor
  · have h := (c1_dict_entry_arrays
      [.ent (lit "dict entry(") (lit "string \"a\"") (lit "string \"1\"")
        (lit ")") (lit "a") (lit "1"),
       .sc (lit "string \"\"") (lit ""),
       .ent (lit "dict entry(") (lit "string \"b\"") (lit "string \"2\"")
        (lit ")") (lit "b") (lit "2")] (by decide)).1
      (by exact List.cons_ne_nil _ _) (by decide)
      (List.all_eq_true.mp (by rfl)) (by decide)
    exact h.trans rfl
  · have h := (c1_dict_entry_arrays
      [.ent (lit "dict entry(") (lit "string \"a\"") (lit "string \"1\"")
        (lit ")") (lit "a") (lit "1"),
       .sc (lit "string \"x\"") (lit "x")] (by decide)).2 (by decide)
    exact h.trans rfl

/-! ## C10: empty-string children are silently omitted -/

/-- C10: a child whose parsed value is the empty string is dropped from the
collected items, so the array result (sequence or, after the all-pairs
check, mapping) has strictly fewer elements than the reply text had
children. -/
theorem c10_empty_children_omitted (cs : List Child)
    (hok : ∀ c ∈ cs, c.ok)
    (hdrop : (cs.map Child.val).any (fun i => !keepVal i) = true) :
    parseReply (arrayPayload cs)
      = finishArr (cs.any Child.isEnt) ((cs.map Child.val).filter keepVal)
    ∧ ((cs.map Child.val).filter keepVal).length < cs.length := by
  refine ⟨parseReply_array cs hok, ?_⟩
  have h : ((cs.map Child.val).filter keepVal).length
      < (cs.map Child.val).length := by
    rw [List.length_filter_lt_length_iff_exists]
    rw [List.any_eq_true] at hdrop
    obtain ⟨x, hx, hpx⟩ := hdrop
    exact ⟨x, hx, by simpa using hpx⟩
  simpa [List.length_map] using h

/-- C10 witness: a three-child array with one `string ""` child parses to a
two-element sequence. -/
theorem c10_empty_children_omitted_witness :
    parseReply (arrayPayload [.sc (lit "string \"a\"") (lit "a"),
      .sc (lit "string \"\"") (lit ""), .sc (lit "string \"b\"") (lit "b")])
      = .arr [.str (lit "a"), .str (lit "b")]
    ∧ (([Child.sc (lit "string \"a\"") (lit "a"),
        .sc (lit "string \"\"") (lit ""),
        .sc (lit "string \"b\"") (lit "b")].map Child.val).filter
          keepVal).length < 3 := by
  have h := c10_empty_children_omitted
    [.sc (lit "string \"a\"") (lit "a"), .sc (lit "string \"\"") (lit ""),
     .sc (lit "string \"b\"") (lit "b")] (by decide) (by decide)
  exact ⟨h.1.trans rfl, h.2⟩

/-! ## C3: multi-line string reconstruction -/

/-- The continuation loop: lines that do not end in an unescaped quote are
accumulated verbatim; the first line that does contributes its
right-stripped text minus the quote, and the parts are joined with
newlines. -/
theorem multiString_spec (mids : List PS) (parts : List PS) (lend : PS)
    (rest : List PS)
    (hmid : ∀ m ∈ mids, (endswith (rstrip m) (lit "\"")
      && !endswith (rstrip m) (lit "\\\"")) = false)
    (hend : (endswith (rstrip lend) (lit "\"")
      && !endswith (rstrip lend) (lit "\\\"")) = true) :
    multiString parts (mids ++ lend :: rest)
      = (joinNl (parts ++ mids ++ [(rstrip lend).dropLast]), rest) := by
  induction mids generalizing parts with
  | nil =>
    simp only [List.nil_append, multiString, hend, if_true, List.append_nil]
  | cons m ms ih =>
    have hm := hmid m (by simp)
    simp only [List.cons_append, multiString, hm, Bool.false_eq_true,
      if_false]
    show multiString (parts ++ [m]) (ms ++ lend :: rest) = _
    rw [ih (parts ++ [m]) (fun x hx => hmid x (by simp [hx]))]
    simp [List.append_assoc]

/-- `_parse_dbus_value` on a `string "` line with no closing quote enters
the multi-line loop with the text after the tag as the first part. -/
theorem parseVal_multiline_step (f : Nat) (l0 p0 : PS) (rest : List PS)
    (h0 : strip l0 = lit "string \"" ++ p0)
    (hnq : endswith (strip l0) (lit "\"") = false) :
    parseVal (f + 1) (l0 :: rest)
      = (.str (multiString [p0] rest).1, (multiString [p0] rest).2) := by
  have hsw : startswith (strip l0) (lit "string \"") = true := by
    rw [h0, startswith_append_of_le _ _ _ (le_refl _)]
    decide
  have hne' : (strip l0 == ([] : PS)) = false := by
    rw [h0]
    exact beq_nil_of_cons 's' (lit "tring \"" ++ p0)
  have hnp' : (strip l0 == lit ")") = false := by
    rw [h0]
    exact beq_head_ne 's' ')' (lit "tring \"" ++ p0) [] (by decide)
  have hdrop : (strip l0).drop 8 = p0 := by
    rw [h0, show (8 : Nat) = (lit "string \"").length from rfl,
      List.drop_left]
  simp only [parseVal, hne', hnp', Bool.or_self, Bool.false_eq_true,
    if_false, hsw, hnq, Bool.not_false, Bool.and_true, if_true, hdrop]

/-- Newline count of a join of newline-free parts. -/
theorem count_joinNl (parts : List PS) (hne : parts ≠ [])
    (h : ∀ p ∈ parts, p.count '\n' = 0) :
    (joinNl parts).count '\n' = parts.length - 1 := by
  induction parts with
  | nil => cases hne rfl
  | cons a t ih =>
    cases t with
    | nil =>
      rw [show joinNl [a] = a from by simp [joinNl, List.intercalate]]
      simpa using h a (by simp)
    | cons b t2 =>
      have hjoin : joinNl (a :: b :: t2) = a ++ '\n' :: joinNl (b :: t2) := by
        simp [joinNl, List.intercalate, List.intersperse]
      rw [hjoin, List.count_append]
      have ha := h a (by simp)
      have hrec := ih (by simp) (fun p hp => h p (by simp [hp]))
      simp only [List.count_cons, ha, hrec]
      simp

/-- C3: a reply whose string payload begins on a `string "` line with no
closing quote continues across subsequent raw lines verbatim until a line
ends in an unescaped quote (after right-stripping), and the value is the
newline-join of the collected parts; when such a payload spans three raw
lines of newline-free text, the reconstructed string contains exactly two
newline characters. -/
theorem c3_multiline_reply (p0 : PS) (mids : List PS) (lend : PS)
    (hstr : strip (lit "string \"" ++ p0) = lit "string \"" ++ p0)
    (hnq : endswith (lit "string \"" ++ p0) (lit "\"") = false)
    (hmidf : ∀ m ∈ mids, startswith (strip m) (lit "method return ") = false)
    (hlendf : startswith (strip lend) (lit "method return ") = false)
    (hmid : ∀ m ∈ mids, (endswith (rstrip m) (lit "\"")
      && !endswith (rstrip m) (lit "\\\"")) = false)
    (hend : (endswith (rstrip lend) (lit "\"")
      && !endswith (rstrip lend) (lit "\\\"")) = true) :
    parseReply ((lit "string \"" ++ p0) :: (mids ++ [lend]))
      = .str (joinNl (p0 :: (mids ++ [(rstrip lend).dropLast])))
    ∧ (p0.count '\n' = 0 → (∀ m ∈ mids, m.count '\n' = 0) →
        ((rstrip lend).dropLast).count '\n' = 0 →
        (joinNl (p0 :: (mids ++ [(rstrip lend).dropLast]))).count '\n'
          = mids.length + 1) := by
  constructor
  · have hl0f : startswith (strip (lit "string \"" ++ p0))
        (lit "method return ") = false := by
      rw [hstr,
        show lit "string \"" ++ p0 = 's' :: (lit "tring \"" ++ p0) from rfl,
        show lit "method return " = 'm' :: lit "ethod return " from rfl]
      exact startswith_head_ne _ _ _ _ (by decide)
    have hfilter : ((lit "string \"" ++ p0) :: (mids ++ [lend])).filter
        (fun l => !startswith (strip l) (lit "method return "))
        = (lit "string \"" ++ p0) :: (mids ++ [lend]) := by
      rw [List.filter_eq_self]
      intro a ha
      rcases List.mem_cons.mp ha with h | h
      · subst h
        simp [hl0f]
      · rcases List.mem_append.mp h with h2 | h2
        · simp [hmidf a h2]
        · simp only [List.mem_singleton] at h2
          subst h2
          simp [hlendf]
    unfold parseReply
    rw [hfilter]
    simp only [List.isEmpty_cons, Bool.false_eq_true, if_false]
    have hfuel : 2 * ((lit "string \"" ++ p0) :: (mids ++ [lend])).length + 2
        = (2 * (mids ++ [lend]).length + 3) + 1 := by
      simp [List.length_cons]
      omega
    rw [hfuel, parseVal_multiline_step _ _ p0 _ hstr (by rw [hstr]; exact hnq),
      multiString_spec mids [p0] lend [] hmid hend]
    simp [List.append_assoc]
  · intro h0 hm hl
    rw [count_joinNl _ (by simp) ?_]
    · simp
    · intro p hp
      rcases List.mem_cons.mp hp with h | h
      · subst h; exact h0
      · rcases List.mem_append.mp h with h2 | h2
        · exact hm p h2
        · simp only [List.mem_singleton] at h2
          subst h2
          exact hl

/-- C3 witness: a payload spanning three raw lines reconstructs with the
two embedded newlines preserved. -/
theorem c3_multiline_reply_witness :
    parseReply [lit "string \"line one", lit "line two", lit "line three\""]
      = .str (lit "line one\nline two\nline three")
    ∧ (lit "line one\nline two\nline three").count '\n' = 2 := by
  have h := c3_multiline_reply (lit "line one") [lit "line two"]
    (lit "line three\"") (by decide) (by decide)
    (by intro m hm; fin_cases hm; decide) (by decide)
    (by intro m hm; fin_cases hm; decide) (by decide)
  constructor
  · have h1 := h.1
    rw [show joinNl (lit "line one" ::
        ([lit "line two"] ++ [(rstrip (lit "line three\"")).dropLast]))
        = lit "line one\nline two\nline three" from by decide] at h1
    exact h1
  · have h2 := h.2 (by decide) (by intro m hm; fin_cases hm; decide)
      (by decide)
    rw [show joinNl (lit "line one" ::
        ([lit "line two"] ++ [(rstrip (lit "line three\"")).dropLast]))
        = lit "line one\nline two\nline three" from by decide] at h2
    simpa using h2

/-! ## C4: Facade retry behaviour -/

/-- C4 counterexample: with a native proxy bound, a failing call propagates
its error with zero rediscoveries and zero retries, contradicting the
claim that every Facade call re-runs discovery exactly once on failure. -/
theorem c4_counterexample :
    (callFacade (V := Nat) (E := Nat)
        ⟨some (.error 7), fun _ => .ok 0, lit "a"⟩ (lit "a")).result
      = .error 7
    ∧ (callFacade (V := Nat) (E := Nat)
        ⟨some (.error 7), fun _ => .ok 0, lit "a"⟩ (lit "a")).discoveries
      = 0 :=
  ⟨rfl, rfl⟩

/-- C4 (amended): for calls on the subprocess path (no native proxy), a
failure re-runs discovery exactly once; a changed address triggers exactly
one retry at the new address, an unchanged address re-raises the original
error; there are never more than two subprocess attempts or one discovery.
Native-proxy failures propagate without any rediscovery. -/
theorem c4_retry_once (V E : Type) (sub : PS → Except E V) (disc svc : PS) :
    (∀ v, sub svc = .ok v →
      callFacade ⟨none, sub, disc⟩ svc = ⟨.ok v, 1, 0⟩)
    ∧ (∀ e, sub svc = .error e → disc = svc →
      callFacade ⟨none, sub, disc⟩ svc = ⟨.error e, 1, 1⟩)
    ∧ (∀ e, sub svc = .error e → disc ≠ svc →
      callFacade ⟨none, sub, disc⟩ svc = ⟨sub disc, 2, 1⟩)
    ∧ (callFacade ⟨none, sub, disc⟩ svc).subCalls ≤ 2
    ∧ (callFacade ⟨none, sub, disc⟩ svc).discoveries ≤ 1 := by
  refine ⟨fun v hv => ?_, fun e he hd => ?_, fun e he hd => ?_, ?_, ?_⟩ <;>
    simp only [callFacade] <;>
    rcases hs : sub svc with e' | v' <;>
    simp_all <;> split <;> simp_all

/-- C4 witness: a call that fails at the old address and succeeds at the
rediscovered one retries exactly once. -/
theorem c4_retry_once_witness :
    callFacade (V := Nat) (E := Nat)
      ⟨none, fun a => if a = lit "x" then .error 3 else .ok 5, lit "y"⟩
      (lit "x") = ⟨.ok 5, 2, 1⟩ := by
  have h := (c4_retry_once Nat Nat
    (fun a => if a = lit "x" then .error 3 else .ok 5)
    (lit "y") (lit "x")).2.2.1 3 rfl (by decide)
  simpa using h

/-! ## C5: CLI tool fallback chain -/

/-- C5 counterexample: dbus-send absent and qdbus present but exiting
non-zero makes the qdbus `CalledProcessError` escape at once — gdbus is
never tried, although the claim says a tool exiting non-zero is skipped and
the next tool tried. -/
theorem c5_counterexample :
    callSubprocess (V := Nat) .missing .exitErr (.ok 5)
      = .error (.qdbus, .exitErr) := rfl

/-- C5 (amended): the tools run strictly in the order dbus-send, qdbus,
gdbus; dbus-send is skipped when absent or exiting non-zero, but qdbus is
skipped only when absent — a non-zero qdbus exit propagates immediately —
and any timeout propagates immediately; gdbus failures propagate. -/
theorem c5_tool_order (V : Type) (d q g : ToolRun V) :
    (∀ v, d = .ok v → callSubprocess d q g = .ok v)
    ∧ (d = .timedOut →
        callSubprocess d q g = .error (.dbusSend, .timedOut))
    ∧ (d = .missing ∨ d = .exitErr →
        (∀ v, q = .ok v → callSubprocess d q g = .ok v)
        ∧ (q = .exitErr →
            callSubprocess d q g = .error (.qdbus, .exitErr))
        ∧ (q = .timedOut →
            callSubprocess d q g = .error (.qdbus, .timedOut))
        ∧ (q = .missing →
            (∀ v, g = .ok v → callSubprocess d q g = .ok v)
            ∧ (g = .missing →
                callSubprocess d q g = .error (.gdbus, .missing))
            ∧ (g = .exitErr →
                callSubprocess d q g = .error (.gdbus, .exitErr))
            ∧ (g = .timedOut →
                callSubprocess d q g = .error (.gdbus, .timedOut)))) := by
  cases d <;> cases q <;> cases g <;> simp [callSubprocess]

/-- C5 witness: dbus-send and qdbus absent, gdbus succeeding: the chain
falls through to gdbus and returns its value. -/
theorem c5_tool_order_witness :
    callSubprocess (V := Nat) .missing .missing (.ok 3) = .ok 3 :=
  ((((c5_tool_order Nat .missing .missing (.ok 3)).2.2
    (Or.inl rfl)).2.2.2 rfl).1) 3 rfl

/-! ## C6: service discovery -/

/-- C6 counterexample: the only advertised name has a non-numeric suffix,
so per the claim discovery should return the generic fallback; the source
returns the advertised name. -/
theorem c6_counterexample :
    numericSuffixMatch (lit "org.kde.kdenlive-beta") = false
    ∧ discoverService true
        (.completed [lit "string \"org.kde.kdenlive-beta\""])
      = lit "org.kde.kdenlive-beta"
    ∧ lit "org.kde.kdenlive-beta" ≠ DBUS_SERVICE := by
  exact ⟨by decide, rfl, by decide⟩

/-- `discoverScan` is a first-match scan. -/
theorem discoverScan_eq_findSome? (ls : List PS) :
    discoverScan ls = ls.findSome? lineCandidate := by
  induction ls with
  | nil => rfl
  | cons l rest ih =>
    simp only [discoverScan, List.findSome?_cons]
    cases lineCandidate l <;> simp [ih]

/-- Any candidate produced by the scan starts with the service name
followed by the separator, hence is non-empty. -/
theorem lineCandidate_ne_nil (l v : PS) (h : lineCandidate l = some v) :
    v ≠ [] := by
  simp only [lineCandidate] at h
  split at h
  · split at h
    · rename_i hpre
      cases h
      intro hnil
      rw [hnil] at hpre
      exact absurd hpre (by decide)
    · cases h
  · cases h

/-- C6 (amended): discovery never raises (it is a total function of the
probe outcome) and always returns a non-empty address: with the tool absent
or the probe failing, the generic fallback name; otherwise the first
advertised name starting with the known prefix followed by the separator
`-` (with any suffix, numeric or not), else the fallback. -/
theorem c6_discovery (found : Bool) (probe : RunOut) :
    discoverService found probe ≠ []
    ∧ (found = false → discoverService found probe = DBUS_SERVICE)
    ∧ (∀ lines, found = true → probe = .completed lines →
        discoverService found probe
          = (lines.findSome? lineCandidate).getD DBUS_SERVICE)
    ∧ (found = true →
        probe = .fileNotFound ∨ probe = .timedOut ∨
          probe = .calledProcessErr →
        discoverService found probe = DBUS_SERVICE) := by
  refine ⟨?_, fun hf => ?_, fun lines hf hp => ?_, fun hf hp => ?_⟩
  · cases found with
    | false => simp [discoverService, DBUS_SERVICE, lit]
    | true =>
      cases probe with
      | completed lines =>
        have hdef : discoverService true (.completed lines)
            = (discoverScan lines).getD DBUS_SERVICE := rfl
        rw [hdef]
        cases hscan : discoverScan lines with
        | none => simp [DBUS_SERVICE, lit]
        | some v =>
          rw [discoverScan_eq_findSome?] at hscan
          obtain ⟨l, _, hl⟩ := List.exists_of_findSome?_eq_some hscan
          simpa using lineCandidate_ne_nil l v hl
      | fileNotFound => simp [discoverService, DBUS_SERVICE, lit]
      | timedOut => simp [discoverService, DBUS_SERVICE, lit]
      | calledProcessErr => simp [discoverService, DBUS_SERVICE, lit]
  · subst hf; rfl
  · subst hf hp
    have hdef : discoverService true (.completed lines)
        = (discoverScan lines).getD DBUS_SERVICE := rfl
    rw [hdef, discoverScan_eq_findSome?]
  · subst hf
    rcases hp with h | h | h <;> subst h <;> rfl

/-- C6 witness: a PID-suffixed advertised name is discovered; a timed-out
probe falls back to the generic name. -/
theorem c6_discovery_witness :
    discoverService true
        (.completed [lit "string \"org.kde.kdenlive-12345\""])
      = lit "org.kde.kdenlive-12345"
    ∧ discoverService true .timedOut = DBUS_SERVICE := by
  constructor
  · have h := (c6_discovery true
      (.completed [lit "string \"org.kde.kdenlive-12345\""])).2.2.1
      [lit "string \"org.kde.kdenlive-12345\""] rfl rfl
    rw [h]; decide
  · exact (c6_discovery true .timedOut).2.2.2 rfl (Or.inr (Or.inl rfl))

/-! ## C7: boolean result coercion in wrappers -/

/-- C7 counterexample: `save_project` coerces with bare `bool(...)`, so the
subprocess-path string `"false"` — non-empty — coerces to `True`, not
`False` as the claim requires. -/
theorem c7_counterexample : save_project (.s (lit "false")) = true := rfl

/-- C7 (amended): wrappers comparing `result.lower() == "true"` (such as
`set_project_color_space`) coerce any casing of `"true"` to `True` and
every other string to `False`, and pass native booleans through; but
wrappers using bare truthiness (such as `save_project`) coerce every
non-empty string — including `"false"` — to `True`.  Both are total: they
never raise on a native boolean or on a string. -/
theorem c7_bool_coercion (v : PS) (b : Bool) :
    (pyLower v = lit "true" → set_project_color_space (.s v) = true)
    ∧ (pyLower v ≠ lit "true" → set_project_color_space (.s v) = false)
    ∧ set_project_color_space (.b b) = b
    ∧ save_project (.b b) = b
    ∧ save_project (.s v) = !v.isEmpty := by
  refine ⟨fun h => ?_, fun h => ?_, rfl, rfl, rfl⟩
  · simp [set_project_color_space, h]
  · simp [set_project_color_space, h]

/-- C7 witness: `"TRUE"` coerces to `True` under the case-insensitive
comparison; `"false"` under bare truthiness coerces to `True`. -/
theorem c7_bool_coercion_witness :
    set_project_color_space (.s (lit "TRUE")) = true
    ∧ save_project (.s (lit "false")) = true := by
  refine ⟨(c7_bool_coercion (lit "TRUE") true).1 (by decide), ?_⟩
  exact (c7_bool_coercion (lit "false") true).2.2.2.2.trans (by decide)

/-! ## C8: track-id validation -/

/-- C8 counterexample: with an EMPTY freshly fetched track set, track id 99
is not a member, yet `insert_clip` skips validation (`if valid and ...`),
issues the remote call and returns its result rather than the sentinel. -/
theorem c8_counterexample :
    insert_clip [] 99 7 = ⟨7, true⟩ := rfl

/-- C8 (amended): when the freshly fetched track set is NON-EMPTY and the
given track id is not a member, each guarded operation returns its
documented sentinel (negative id, raised `ValueError`, `False`, empty list)
without issuing the underlying remote call. -/
theorem c8_track_validation (validIds : List Int) (trackId : Int)
    (h1 : validIds ≠ []) (h2 : validIds.contains trackId = false)
    (A : Type) (r1 : Int) (r2 : List Int) (r3 : Bool) (r4 : List A) :
    insert_clip validIds trackId r1 = ⟨-1, false⟩
    ∧ insert_clips_sequentially validIds trackId r2 = ⟨.error (), false⟩
    ∧ move_clip validIds trackId r3 = ⟨false, false⟩
    ∧ get_clips_on_track validIds trackId r4 = ⟨[], false⟩ := by
  have hne : validIds.isEmpty = false := by
    simpa [List.isEmpty_iff] using h1
  have h2' : trackId ∉ validIds := by simpa using h2
  refine ⟨?_, ?_, ?_, ?_⟩ <;>
    simp [insert_clip, insert_clips_sequentially, move_clip,
      get_clips_on_track, hne, h2, h2']

/-- C8 witness: inserting on track id 99 with tracks 0 and 1 present
returns the sentinel without a remote call (all four operations). -/
theorem c8_track_validation_witness :
    insert_clip [0, 1] 99 7 = ⟨-1, false⟩
    ∧ insert_clips_sequentially [0, 1] 99 [4, 5] = ⟨.error (), false⟩
    ∧ move_clip [0, 1] 99 true = ⟨false, false⟩
    ∧ get_clips_on_track [0, 1] 99 [(3 : Int)] = ⟨[], false⟩ :=
  c8_track_validation [0, 1] 99 (by decide) (by decide) Int 7 [4, 5] true
    [(3 : Int)]

/-! ## C9: TimelineItem cache invalidation -/

/-- C9 counterexample: `Cut` is a mutating call, yet it leaves the cached
snapshot in place — the next property read does not re-fetch, contradicting
the claim that resize/Move/Cut all invalidate the cache. -/
theorem c9_counterexample :
    ((TimelineItem.Cut ⟨3, some [(lit "name", .str (lit "clip"))]⟩
        true).2).info
      = some [(lit "name", .str (lit "clip"))] :=
  rfl

/-- C9 (amended): `SetDuration` and `Move` invalidate the cached property
snapshot (set it to `None`) so the next read re-fetches, but `Cut` leaves
the handle — including its cache — unchanged. -/
theorem c9_cache_invalidation (it : TimelineItem) (n : Int) (r : Bool) :
    ((TimelineItem.SetDuration it n).2).info = none
    ∧ ((TimelineItem.Move it r).2).info = none
    ∧ (TimelineItem.Cut it r).2 = it :=
  ⟨rfl, rfl, rfl⟩
